import Mathlib

/-!
Verification of the `formulas_ocr` repository's asynchronous
document-extraction workflow (`upload_to_mineru` in `src/main.py`) and its
object-store naming rules (`MinIOStorage.upload_file` in `src/storage.py`).

The embedding is shallow: the poll loop of `upload_to_mineru`
(main.py lines 191-298) becomes an explicit fuel-bounded recursion over a
sequence of service responses, the in-memory zip scan (lines 229-273)
becomes pure functions over a list of entries, and the object-name choice
of `upload_file` (storage.py lines 69-73) becomes a pure string function.
Entry payloads are modelled as already-decoded strings (UTF-8 decoding and
JSON parsing of `layout.json` are abstracted into the entry's stored text);
every transport failure (a raising `requests.get` / `raise_for_status`,
an unreadable archive) is a distinguished outcome, since in the source it
propagates as an exception and no result object is returned.
-/

namespace MineruSpec

/-! ## Character-list helpers

Python string operations used by the source, written out over `List Char`:
`"." in s`, `s.rsplit(".", 1)[-1]`, `os.path.basename`, `startswith`,
substring containment (`"layout.json" in name`). -/

/-- Membership test of a character in a list: Python's `c in s`. -/
def hasChar : List Char → Char → Bool
  | [], _ => false
  | a :: t, c => if a = c then true else hasChar t c

/-- Whether `pat` is an initial segment of `l`: Python's `s.startswith(pat)`. -/
def listStartsWith : List Char → List Char → Bool
  | [], _ => true
  | _ :: _, [] => false
  | a :: pat, b :: l => if a = b then listStartsWith pat l else false

/-- Whether `needle` occurs contiguously inside `hay`: Python's `needle in hay`. -/
def containsSub (needle : List Char) : List Char → Bool
  | [] => needle.isEmpty
  | b :: t => listStartsWith needle (b :: t) || containsSub needle t

/-- The suffix of `l` after the last occurrence of `c` (all of `l` when `c`
does not occur): the semantics of Python's `s.rsplit(c, 1)[-1]` and, for
`c = '/'`, of `os.path.basename`. -/
def afterLast (c : Char) (l : List Char) : List Char :=
  (l.reverse.takeWhile (fun x => decide (x ≠ c))).reverse

/-! ## storage.py: MinIO settings and `upload_file` -/

/-- config.py default `MINIO_ENDPOINT`. -/
def MINIO_ENDPOINT : String := "172.21.0.93:9000"

/-- config.py default `MINIO_BUCKET_NAME`. -/
def MINIO_BUCKET_NAME : String := "oct-parser"

/-- config.py default `MINIO_SECURE`. -/
def MINIO_SECURE : Bool := false

/-- storage.py `_build_file_url`: `<protocol>://<endpoint>/<bucket>/<object_name>`. -/
def build_file_url (object_name : String) : String :=
  (if MINIO_SECURE then "https" else "http") ++ "://" ++ MINIO_ENDPOINT ++ "/"
    ++ MINIO_BUCKET_NAME ++ "/" ++ object_name

/-- Python `file_name.rsplit(".", 1)[-1]`: the part after the last dot. -/
def rsplitLastDot (file_name : String) : String :=
  String.mk (afterLast '.' file_name.data)

/-- storage.py line 72: `ext = file_name.rsplit(".", 1)[-1] if "." in file_name else ""`. -/
def extOf (file_name : String) : String :=
  if hasChar file_name.data '.' then rsplitLastDot file_name else ""

/-- storage.py `upload_file`'s object-name choice (lines 69-73): the original
name when `use_original_name`, otherwise `f"{uuid4()}.{ext}" if ext else
str(uuid4())` with the freshly generated uuid string passed in as `gen_id`. -/
def upload_object_name (file_name gen_id : String) (use_original_name : Bool) : String :=
  if use_original_name then file_name
  else if extOf file_name = "" then gen_id
  else gen_id ++ "." ++ extOf file_name

/-- The URL `upload_file` returns for the stored object. -/
def upload_file_url (file_name gen_id : String) (use_original_name : Bool) : String :=
  build_file_url (upload_object_name file_name gen_id use_original_name)

/-! ## main.py: the in-memory zip scan (lines 229-273) -/

/-- One archive entry: its path inside the zip and its payload, with the
payload of a text entry kept as the decoded text. -/
structure ZipEntry where
  filename : String
  fileData : String
deriving DecidableEq

/-- zipfile's `ZipInfo.is_dir()`: the stored name ends with a slash. -/
def zipIsDir (e : ZipEntry) : Bool :=
  match e.filename.data.getLast? with
  | some c => decide (c = '/')
  | none => false

/-- main.py lines 231-237: scan `filelist` in order and read the first entry
whose path contains `"layout.json"`; `None` when no entry matches. -/
def findLayout : List ZipEntry → Option String
  | [] => none
  | e :: rest =>
    if containsSub "layout.json".data e.filename.data then some e.fileData
    else findLayout rest

/-- The record appended to `image_urls` for each relocated image
(main.py lines 267-271). -/
structure ImageInfo where
  name : String
  path : String
  url : String
deriving DecidableEq

/-- main.py line 242: `file_info.filename.startswith("images/") and not
file_info.is_dir()`. -/
def imagePred (e : ZipEntry) : Bool :=
  listStartsWith "images/".data e.filename.data && !(zipIsDir e)

/-- `os.path.basename` (main.py line 247). -/
def basenameStr (p : String) : String :=
  String.mk (afterLast '/' p.data)

/-- main.py lines 244-271: one image entry's relocation — the object is
stored with `use_original_name=True` under `os.path.basename(filename)`,
and the returned record keeps the name, the archive path and the URL. -/
def mkImageInfo (e : ZipEntry) : ImageInfo :=
  { name := basenameStr e.filename
  , path := e.filename
  , url := upload_file_url (basenameStr e.filename) "" true }

/-- main.py lines 241-271: the `for file_info in zip_ref.filelist` loop that
relocates every non-directory entry under `images/`, appending one record
per entry in enumeration order. -/
def extractImages : List ZipEntry → List ImageInfo
  | [] => []
  | e :: rest =>
    if imagePred e then mkImageInfo e :: extractImages rest
    else extractImages rest

/-! ## main.py: the poll loop (lines 189-298) -/

/-- One element of a status response's `extract_result` list; each field is
read with `.get`, so an absent key is `none`. -/
structure ExtractInfo where
  state : Option String
  err_msg : Option String
  full_zip_url : Option String
deriving DecidableEq

/-- One status-poll round trip: either the GET / `raise_for_status` raises
(`transportError`, main.py lines 202-207) or a JSON body with a `code` and
an `extract_result` list arrives. -/
inductive StatusResponse where
  | transportError : StatusResponse
  | ok : Int → List ExtractInfo → StatusResponse
deriving DecidableEq

/-- The archive download (main.py lines 222-229): either the GET /
`raise_for_status` / zip parse raises, or a list of entries is obtained. -/
inductive ZipFetch where
  | fetchError : ZipFetch
  | archive : List ZipEntry → ZipFetch
deriving DecidableEq

/-- The loop's mutable locals (main.py lines 193-196): `final_state`,
`final_err_msg`, `content_list`, `image_urls`. -/
structure LoopState where
  final_state : String
  final_err_msg : String
  content_list : Option String
  image_urls : List ImageInfo
deriving DecidableEq

/-- What the endpoint does after the loop: `exn n` when an exception escaped
during attempt `n` (the handlers at main.py lines 300-309 turn it into an
HTTP 500, so no result object is returned), `finished st n` when the loop
ended after `n` status queries and the result object is built from `st`
(main.py lines 280-293). -/
inductive LoopResult where
  | exn : Nat → LoopResult
  | finished : LoopState → Nat → LoopResult
deriving DecidableEq

/-- Python truthiness of `extract_info.get("full_zip_url")`: absent key and
empty string are both falsy (main.py line 221). -/
def truthy : Option String → Bool
  | none => false
  | some s => if s = "" then false else true

/-- main.py line 191: `max_retries = 30`. -/
def max_retries : Nat := 30

/-- The locals' initial values (main.py lines 193-196). -/
def pollInit : LoopState :=
  { final_state := "processing", final_err_msg := "", content_list := none
  , image_urls := [] }

/-- One poll attempt's effect when it ends the loop (main.py lines 202-277):
`some r` when the attempt raises or breaks, `none` when the loop goes on
(non-zero code, empty `extract_result`, or a state that is neither `"done"`
nor `"failed"`). The `"done"` branch breaks whether or not `full_zip_url`
is present; only when it is present (and truthy) is the archive fetched and
scanned. -/
def stepResult (fetch : String → ZipFetch) (k : Nat) (st : LoopState) :
    StatusResponse → Option LoopResult
  | .transportError => some (.exn (k + 1))
  | .ok c ers =>
    if c = 0 then
      match ers with
      | [] => none
      | info :: _ =>
        if info.state.getD "unknown" = "done" then
          if truthy info.full_zip_url then
            match fetch (info.full_zip_url.getD "") with
            | .fetchError => some (.exn (k + 1))
            | .archive entries =>
              some (.finished ⟨info.state.getD "unknown", info.err_msg.getD "",
                findLayout entries, extractImages entries⟩ (k + 1))
          else
            some (.finished ⟨info.state.getD "unknown", info.err_msg.getD "",
              st.content_list, st.image_urls⟩ (k + 1))
        else if info.state.getD "unknown" = "failed" then
          some (.finished ⟨info.state.getD "unknown", info.err_msg.getD "",
            st.content_list, st.image_urls⟩ (k + 1))
        else none
    else none

/-- The locals after an attempt that does not end the loop (main.py lines
210-215): a zero-code response with a nonempty `extract_result` rewrites
`final_state` and `final_err_msg`; any other response leaves them alone. -/
def contState (st : LoopState) : StatusResponse → LoopState
  | .transportError => st
  | .ok c ers =>
    if c = 0 then
      match ers with
      | [] => st
      | info :: _ =>
        ⟨info.state.getD "unknown", info.err_msg.getD "",
          st.content_list, st.image_urls⟩
    else st

/-- main.py lines 198-278: `for attempt in range(max_retries)`, reading
`resp k` on the `k`-th (0-based) attempt; an attempt either produces the
loop's outcome or the loop continues with the rewritten locals. When the
fuel runs out the loop falls through and the result is built from the
current locals. -/
def pollLoop (resp : Nat → StatusResponse) (fetch : String → ZipFetch) :
    Nat → Nat → LoopState → LoopResult
  | 0, k, st => .finished st k
  | fuel + 1, k, st =>
    match stepResult fetch k st (resp k) with
    | some r => r
    | none => pollLoop resp fetch fuel (k + 1) (contState st (resp k))

/-- The whole poll phase of `upload_to_mineru`: 30 attempts starting from
the initial locals. -/
def upload_to_mineru (resp : Nat → StatusResponse) (fetch : String → ZipFetch) :
    LoopResult :=
  pollLoop resp fetch max_retries 0 pollInit

/-- How many status queries were performed before the outcome. -/
def attemptsOf : LoopResult → Nat
  | .exn n => n
  | .finished _ n => n

/-- A response on which the loop keeps polling: a non-zero code, an empty
`extract_result`, or a first entry whose state is neither `"done"` nor
`"failed"` (main.py lines 210-278). -/
def continuesPolling : StatusResponse → Bool
  | .transportError => false
  | .ok c ers =>
    if c = 0 then
      match ers with
      | [] => true
      | info :: _ =>
        decide (info.state.getD "unknown" ≠ "done" ∧
          info.state.getD "unknown" ≠ "failed")
    else true

/-- A response that reports a terminal state: zero code, nonempty
`extract_result`, first entry's state `"done"` or `"failed"`. -/
def reportsTerminal : StatusResponse → Bool
  | .transportError => false
  | .ok c ers =>
    if c = 0 then
      match ers with
      | [] => false
      | info :: _ =>
        decide (info.state.getD "unknown" = "done" ∨
          info.state.getD "unknown" = "failed")
    else false

/-- A response whose examined `err_msg` (when any is examined) is empty. -/
def respErrMsgEmpty : StatusResponse → Bool
  | .transportError => true
  | .ok c ers =>
    if c = 0 then
      match ers with
      | [] => true
      | info :: _ => decide (info.err_msg.getD "" = "")
    else true

/-- The locals after `i` consecutive non-breaking attempts `k, k+1, …, k+i-1`. -/
def iterState (resp : Nat → StatusResponse) : Nat → Nat → LoopState → LoopState
  | _, 0, st => st
  | k, i + 1, st => iterState resp (k + 1) i (contState st (resp k))

/-! Concrete response sequences and fetchers used by the counterexamples and
witnesses. -/

/-- A fetcher that always fails: an outcome other than `exn` obtained with
it shows the archive download was never attempted. -/
def fetchNone : String → ZipFetch := fun _ => .fetchError

/-- Every poll answers `state="done"` with no `full_zip_url`. -/
def respDoneNoZip : Nat → StatusResponse :=
  fun _ => .ok 0 [⟨some "done", none, none⟩]

/-- Every poll raises at the transport level. -/
def respTransport : Nat → StatusResponse := fun _ => .transportError

/-- Every poll answers a still-processing state. -/
def respProcessing : Nat → StatusResponse :=
  fun _ => .ok 0 [⟨some "processing", none, none⟩]

/-- Every poll answers `state="done"` with a non-empty `err_msg` and a zip URL. -/
def respDoneErr : Nat → StatusResponse :=
  fun _ => .ok 0 [⟨some "done", some "boom", some "http://z"⟩]

/-- A fetcher returning an archive with no entries at all. -/
def fetchEmptyArchive : String → ZipFetch := fun _ => .archive []

/-- Every poll answers `state="failed"` with an error message. -/
def respFailed : Nat → StatusResponse :=
  fun _ => .ok 0 [⟨some "failed", some "parse error", none⟩]

/-- One still-processing answer, then `state="done"` with an empty
`full_zip_url` (falsy, like an absent one). -/
def respProcThenDone : Nat → StatusResponse :=
  fun n => if n = 0 then .ok 0 [⟨some "processing", none, none⟩]
    else .ok 0 [⟨some "done", some "", some ""⟩]

/-! ## Helper lemmas: character lists -/

theorem listStartsWith_append (n r : List Char) : listStartsWith n (n ++ r) = true := by
  induction n with
  | nil => rfl
  | cons a t ih => simp [listStartsWith, ih]

theorem containsSub_of_startsWith {n h : List Char} (hs : listStartsWith n h = true) :
    containsSub n h = true := by
  cases h with
  | nil =>
    cases n with
    | nil => rfl
    | cons a t => simp [listStartsWith] at hs
  | cons b t => simp [containsSub, hs]

theorem containsSub_self (l : List Char) : containsSub l l = true := by
  have := listStartsWith_append l []
  rw [List.append_nil] at this
  exact containsSub_of_startsWith this

theorem hasChar_eq_false_iff (l : List Char) (c : Char) :
    hasChar l c = false ↔ ∀ x ∈ l, x ≠ c := by
  induction l with
  | nil => simp [hasChar]
  | cons a t ih =>
    by_cases hac : a = c
    · simp [hasChar, hac]
    · simp [hasChar, hac, ih]

theorem hasChar_append_cons (xs ys : List Char) (c : Char) :
    hasChar (xs ++ c :: ys) c = true := by
  induction xs with
  | nil => simp [hasChar]
  | cons a t ih =>
    by_cases hac : a = c
    · simp [hasChar, hac]
    · simp [hasChar, hac, ih]

theorem takeWhile_all_append (p : Char → Bool) (l₁ : List Char) (b : Char) (l₂ : List Char)
    (h₁ : ∀ x ∈ l₁, p x = true) (hb : p b = false) :
    List.takeWhile p (l₁ ++ b :: l₂) = l₁ := by
  induction l₁ with
  | nil => simp [List.takeWhile, hb]
  | cons a t ih =>
    have ha : p a = true := h₁ a (List.mem_cons_self a t)
    simp only [List.cons_append, List.takeWhile_cons, ha, if_true]
    rw [ih fun x hx => h₁ x (List.mem_cons_of_mem a hx)]

theorem afterLast_append (c : Char) (xs ys : List Char) (h : hasChar ys c = false) :
    afterLast c (xs ++ c :: ys) = ys := by
  have hrev : (xs ++ c :: ys).reverse = ys.reverse ++ c :: xs.reverse := by
    simp [List.reverse_append]
  have hmem : ∀ x ∈ ys.reverse, (fun x => decide (x ≠ c)) x = true := by
    intro x hx
    have hx' : x ∈ ys := List.mem_reverse.mp hx
    simp [(hasChar_eq_false_iff ys c).mp h x hx']
  have hc : (fun x => decide (x ≠ c)) c = false := by simp
  unfold afterLast
  rw [hrev, takeWhile_all_append _ _ _ _ hmem hc, List.reverse_reverse]

/-! ## Helper lemmas: extension splitting -/

theorem extOf_no_dot (file_name : String) (h : hasChar file_name.data '.' = false) :
    extOf file_name = "" := by
  simp [extOf, h]

theorem extOf_append (stem ext : String) (h : hasChar ext.data '.' = false) :
    extOf (stem ++ "." ++ ext) = ext := by
  have hdata : (stem ++ "." ++ ext).data = stem.data ++ '.' :: ext.data := by
    simp [String.data_append]
  have hdot : hasChar (stem.data ++ '.' :: ext.data) '.' = true :=
    hasChar_append_cons _ _ _
  have hsplit : rsplitLastDot (stem ++ "." ++ ext) = ext := by
    unfold rsplitLastDot
    rw [hdata, afterLast_append _ _ _ h]
  unfold extOf
  rw [hdata, if_pos hdot, hsplit]

/-! ## Helper lemmas: the step function -/

theorem attemptsOf_stepResult {fetch : String → ZipFetch} {k : Nat} {st : LoopState}
    {r : StatusResponse} {res : LoopResult}
    (h : stepResult fetch k st r = some res) : attemptsOf res = k + 1 := by
  cases r with
  | transportError =>
    simp only [stepResult, Option.some.injEq] at h
    subst h; rfl
  | ok c ers =>
    simp only [stepResult] at h
    repeat' split at h
    all_goals first
      | exact Option.noConfusion h
      | (injection h with h; subst h; rfl)

theorem stepResult_none_of_cont {r : StatusResponse}
    (hc : continuesPolling r = true) (fetch : String → ZipFetch) (k : Nat) (st : LoopState) :
    stepResult fetch k st r = none := by
  cases r with
  | transportError => simp [continuesPolling] at hc
  | ok c ers =>
    simp only [continuesPolling] at hc
    simp only [stepResult]
    repeat' split
    all_goals simp_all

theorem stepResult_isSome_of_terminal {r : StatusResponse}
    (ht : reportsTerminal r = true) (fetch : String → ZipFetch) (k : Nat) (st : LoopState) :
    (stepResult fetch k st r).isSome = true := by
  cases r with
  | transportError => simp [stepResult]
  | ok c ers =>
    simp only [reportsTerminal] at ht
    simp only [stepResult]
    repeat' split
    all_goals simp_all

theorem stepResult_transport (fetch : String → ZipFetch) (k : Nat) (st : LoopState) :
    stepResult fetch k st .transportError = some (.exn (k + 1)) := rfl

theorem stepResult_done_nozip {info : ExtractInfo} (rest : List ExtractInfo)
    (fetch : String → ZipFetch) (k : Nat) (st : LoopState)
    (hdone : info.state.getD "unknown" = "done")
    (hz : truthy info.full_zip_url = false) :
    stepResult fetch k st (.ok 0 (info :: rest)) =
      some (.finished ⟨"done", info.err_msg.getD "", st.content_list, st.image_urls⟩ (k + 1)) := by
  simp [stepResult, hdone, hz]

theorem stepResult_finished_state {fetch : String → ZipFetch} {k : Nat} {st st' : LoopState}
    {r : StatusResponse} {n : Nat}
    (h : stepResult fetch k st r = some (.finished st' n)) :
    st'.final_state = "done" ∨
      (st'.content_list = st.content_list ∧ st'.image_urls = st.image_urls) := by
  cases r with
  | transportError => simp [stepResult] at h
  | ok c ers =>
    simp only [stepResult] at h
    repeat' split at h
    all_goals
      first
      | exact Option.noConfusion h
      | (injection h with h
         first
         | exact LoopResult.noConfusion h
         | (injection h with h1 h2
            subst h1
            simp_all))

theorem stepResult_finished_err {fetch : String → ZipFetch} {k : Nat} {st st' : LoopState}
    {r : StatusResponse} {n : Nat}
    (he : respErrMsgEmpty r = true)
    (h : stepResult fetch k st r = some (.finished st' n)) :
    st'.final_err_msg = "" := by
  cases r with
  | transportError => simp [stepResult] at h
  | ok c ers =>
    simp only [stepResult] at h
    repeat' split at h
    all_goals
      first
      | exact Option.noConfusion h
      | (injection h with h
         first
         | exact LoopResult.noConfusion h
         | (injection h with h1 h2
            subst h1
            simp_all [respErrMsgEmpty]))

/-! ## Helper lemmas: the loop -/

theorem contState_content_list (st : LoopState) (r : StatusResponse) :
    (contState st r).content_list = st.content_list := by
  cases r with
  | transportError => rfl
  | ok c ers =>
    simp only [contState]
    split
    · cases ers <;> rfl
    · rfl

theorem contState_image_urls (st : LoopState) (r : StatusResponse) :
    (contState st r).image_urls = st.image_urls := by
  cases r with
  | transportError => rfl
  | ok c ers =>
    simp only [contState]
    split
    · cases ers <;> rfl
    · rfl

theorem contState_not_terminal {r : StatusResponse} (hc : continuesPolling r = true)
    (st : LoopState) (hd : st.final_state ≠ "done") (hf : st.final_state ≠ "failed") :
    (contState st r).final_state ≠ "done" ∧ (contState st r).final_state ≠ "failed" := by
  cases r with
  | transportError => exact ⟨hd, hf⟩
  | ok c ers =>
    by_cases hc0 : c = 0
    · cases ers with
      | nil => simpa [contState, hc0] using ⟨hd, hf⟩
      | cons info rest =>
        simp only [continuesPolling, hc0, if_true, decide_eq_true_eq] at hc
        simpa [contState, hc0] using hc
    · simpa [contState, hc0] using ⟨hd, hf⟩

theorem contState_err_empty {r : StatusResponse} (he : respErrMsgEmpty r = true)
    (st : LoopState) (h : st.final_err_msg = "") :
    (contState st r).final_err_msg = "" := by
  cases r with
  | transportError => exact h
  | ok c ers =>
    by_cases hc0 : c = 0
    · cases ers with
      | nil => simpa [contState, hc0] using h
      | cons info rest =>
        simp only [respErrMsgEmpty, hc0, if_true, decide_eq_true_eq] at he
        simpa [contState, hc0] using he
    · simpa [contState, hc0] using h

theorem iterState_content_list (resp : Nat → StatusResponse) :
    ∀ (i k : Nat) (st : LoopState),
      (iterState resp k i st).content_list = st.content_list := by
  intro i
  induction i with
  | zero => intro k st; rfl
  | succ n ih =>
    intro k st
    simp only [iterState]
    rw [ih, contState_content_list]

theorem iterState_image_urls (resp : Nat → StatusResponse) :
    ∀ (i k : Nat) (st : LoopState),
      (iterState resp k i st).image_urls = st.image_urls := by
  intro i
  induction i with
  | zero => intro k st; rfl
  | succ n ih =>
    intro k st
    simp only [iterState]
    rw [ih, contState_image_urls]

theorem iterState_not_terminal (resp : Nat → StatusResponse) :
    ∀ (i k : Nat) (st : LoopState),
      (∀ j, j < i → continuesPolling (resp (k + j)) = true) →
      st.final_state ≠ "done" → st.final_state ≠ "failed" →
      (iterState resp k i st).final_state ≠ "done" ∧
        (iterState resp k i st).final_state ≠ "failed" := by
  intro i
  induction i with
  | zero => intro k st _ hd hf; exact ⟨hd, hf⟩
  | succ n ih =>
    intro k st h hd hf
    simp only [iterState]
    have h0 : continuesPolling (resp k) = true := by
      have := h 0 (Nat.succ_pos n)
      simpa using this
    have hnext := contState_not_terminal h0 st hd hf
    refine ih (k + 1) (contState st (resp k)) ?_ hnext.1 hnext.2
    intro j hj
    have := h (j + 1) (Nat.succ_lt_succ hj)
    rwa [show k + (j + 1) = k + 1 + j by omega] at this

theorem attemptsOf_pollLoop_le (resp : Nat → StatusResponse) (fetch : String → ZipFetch) :
    ∀ (fuel k : Nat) (st : LoopState),
      attemptsOf (pollLoop resp fetch fuel k st) ≤ k + fuel := by
  intro fuel
  induction fuel with
  | zero => intro k st; simp [pollLoop, attemptsOf]
  | succ n ih =>
    intro k st
    cases hs : stepResult fetch k st (resp k) with
    | none =>
      have hrec : pollLoop resp fetch (n + 1) k st =
          pollLoop resp fetch n (k + 1) (contState st (resp k)) := by
        simp only [pollLoop, hs]
      rw [hrec]
      have := ih (k + 1) (contState st (resp k))
      omega
    | some res =>
      have heq : pollLoop resp fetch (n + 1) k st = res := by
        simp only [pollLoop, hs]
      rw [heq]
      have := attemptsOf_stepResult hs
      omega

theorem pollLoop_cont (resp : Nat → StatusResponse) (fetch : String → ZipFetch)
    (fuel k : Nat) (st : LoopState) (hc : continuesPolling (resp k) = true) :
    pollLoop resp fetch (fuel + 1) k st =
      pollLoop resp fetch fuel (k + 1) (contState st (resp k)) := by
  simp only [pollLoop, stepResult_none_of_cont hc]

theorem pollLoop_skip (resp : Nat → StatusResponse) (fetch : String → ZipFetch) :
    ∀ (i fuel k : Nat) (st : LoopState),
      (∀ j, j < i → continuesPolling (resp (k + j)) = true) →
      pollLoop resp fetch (i + fuel) k st =
        pollLoop resp fetch fuel (k + i) (iterState resp k i st) := by
  intro i
  induction i with
  | zero => intro fuel k st _; simp [iterState]
  | succ n ih =>
    intro fuel k st h
    have h0 : continuesPolling (resp k) = true := by
      have := h 0 (Nat.succ_pos n)
      simpa using this
    have hstep : pollLoop resp fetch (n + 1 + fuel) k st =
        pollLoop resp fetch (n + fuel) (k + 1) (contState st (resp k)) := by
      rw [show n + 1 + fuel = n + fuel + 1 by omega]
      exact pollLoop_cont resp fetch (n + fuel) k st h0
    rw [hstep, ih fuel (k + 1) (contState st (resp k)) ?_]
    · rw [show k + 1 + n = k + (n + 1) by omega]
      rfl
    · intro j hj
      have := h (j + 1) (Nat.succ_lt_succ hj)
      rwa [show k + (j + 1) = k + 1 + j by omega] at this

theorem pollLoop_finished_content (resp : Nat → StatusResponse) (fetch : String → ZipFetch) :
    ∀ (fuel k : Nat) (st : LoopState), st.content_list = none → st.image_urls = [] →
      ∀ (st' : LoopState) (n : Nat), pollLoop resp fetch fuel k st = .finished st' n →
      st'.final_state = "done" ∨ (st'.content_list = none ∧ st'.image_urls = []) := by
  intro fuel
  induction fuel with
  | zero =>
    intro k st hc hi st' n h
    simp only [pollLoop] at h
    injection h with h1 h2
    subst h1
    exact Or.inr ⟨hc, hi⟩
  | succ m ih =>
    intro k st hc hi st' n h
    cases hs : stepResult fetch k st (resp k) with
    | some res =>
      have heq : pollLoop resp fetch (m + 1) k st = res := by
        simp only [pollLoop, hs]
      rw [heq] at h
      subst h
      rcases stepResult_finished_state hs with hd | ⟨h1, h2⟩
      · exact Or.inl hd
      · exact Or.inr ⟨h1.trans hc, h2.trans hi⟩
    | none =>
      have heq : pollLoop resp fetch (m + 1) k st =
          pollLoop resp fetch m (k + 1) (contState st (resp k)) := by
        simp only [pollLoop, hs]
      rw [heq] at h
      refine ih (k + 1) (contState st (resp k)) ?_ ?_ st' n h
      · rw [contState_content_list]; exact hc
      · rw [contState_image_urls]; exact hi

theorem pollLoop_err_empty (resp : Nat → StatusResponse) (fetch : String → ZipFetch) :
    ∀ (fuel k : Nat) (st : LoopState),
      (∀ j, j < fuel → respErrMsgEmpty (resp (k + j)) = true) →
      st.final_err_msg = "" →
      ∀ (st' : LoopState) (n : Nat), pollLoop resp fetch fuel k st = .finished st' n →
      st'.final_err_msg = "" := by
  intro fuel
  induction fuel with
  | zero =>
    intro k st _ hemp st' n h
    simp only [pollLoop] at h
    injection h with h1 h2
    subst h1
    exact hemp
  | succ m ih =>
    intro k st hall hemp st' n h
    cases hs : stepResult fetch k st (resp k) with
    | some res =>
      have heq : pollLoop resp fetch (m + 1) k st = res := by
        simp only [pollLoop, hs]
      rw [heq] at h
      subst h
      exact stepResult_finished_err (by simpa using hall 0 (Nat.succ_pos m)) hs
    | none =>
      have heq : pollLoop resp fetch (m + 1) k st =
          pollLoop resp fetch m (k + 1) (contState st (resp k)) := by
        simp only [pollLoop, hs]
      rw [heq] at h
      refine ih (k + 1) (contState st (resp k)) ?_ ?_ st' n h
      · intro j hj
        have := hall (j + 1) (Nat.succ_lt_succ hj)
        rwa [show k + (j + 1) = k + 1 + j by omega] at this
      · exact contState_err_empty (by simpa using hall 0 (Nat.succ_pos m)) st hemp

/-! ## Helper lemmas: names and membership in the image list -/

theorem containsSub_append (n r : List Char) : containsSub n (n ++ r) = true :=
  containsSub_of_startsWith (listStartsWith_append n r)

theorem upload_object_name_false (file_name gen_id : String) :
    upload_object_name file_name gen_id false =
      if extOf file_name = "" then gen_id else gen_id ++ "." ++ extOf file_name := rfl

theorem mem_extractImages {img : ImageInfo} :
    ∀ {entries : List ZipEntry}, img ∈ extractImages entries →
      ∃ e, e ∈ entries ∧ imagePred e = true ∧ img = mkImageInfo e := by
  intro entries
  induction entries with
  | nil => intro h; simp [extractImages] at h
  | cons e rest ih =>
    intro h
    by_cases hp : imagePred e = true
    · rw [extractImages, if_pos hp] at h
      rcases List.mem_cons.mp h with heq | hmem
      · exact ⟨e, List.mem_cons_self e rest, hp, heq⟩
      · obtain ⟨e2, he2, hp2, heq2⟩ := ih hmem
        exact ⟨e2, List.mem_cons_of_mem e he2, hp2, heq2⟩
    · rw [extractImages, if_neg hp] at h
      obtain ⟨e2, he2, hp2, heq2⟩ := ih h
      exact ⟨e2, List.mem_cons_of_mem e he2, hp2, heq2⟩

theorem extractImages_eq_filter_map (entries : List ZipEntry) :
    extractImages entries = (entries.filter imagePred).map mkImageInfo := by
  induction entries with
  | nil => rfl
  | cons e rest ih =>
    by_cases hp : imagePred e = true
    · rw [extractImages, if_pos hp, List.filter_cons_of_pos hp, List.map_cons, ih]
    · rw [extractImages, if_neg hp, List.filter_cons_of_neg hp, ih]

/-! ## The claims -/

/-- C1, counterexample: a completion response with no `full_zip_url` still
ends the loop with `final_state = "done"` — the concrete sequence whose every
response is `state="done"` without an archive reference yields a `"done"`
result after one attempt (and the fetcher is never consulted, since the
always-failing fetcher did not produce an exception). The claim says such a
sequence's poll result is not Done. -/
theorem c1_counterexample :
    respDoneNoZip 0 = .ok 0 [⟨some "done", none, none⟩] ∧
    truthy (⟨some "done", none, none⟩ : ExtractInfo).full_zip_url = false ∧
    upload_to_mineru respDoneNoZip fetchNone = .finished ⟨"done", "", none, []⟩ 1 :=
  ⟨rfl, rfl, by decide⟩

/-- C1, amended: when the first terminal-reporting response says `"done"`
but carries no (truthy) `full_zip_url`, the loop still ends in state
`"done"` at that attempt — but no archive download is attempted (the
outcome is the same for every fetcher) and `content_list` and `image_urls`
stay empty. -/
theorem c1_done_without_zip (resp : Nat → StatusResponse) (fetch : String → ZipFetch)
    (i : Nat) (info : ExtractInfo) (rest : List ExtractInfo)
    (hi : i < max_retries)
    (hprev : ∀ j, j < i → continuesPolling (resp j) = true)
    (hr : resp i = .ok 0 (info :: rest))
    (hdone : info.state.getD "unknown" = "done")
    (hz : truthy info.full_zip_url = false) :
    upload_to_mineru resp fetch =
      .finished ⟨"done", info.err_msg.getD "", none, []⟩ (i + 1) ∧
    ∀ fetch2 : String → ZipFetch,
      upload_to_mineru resp fetch2 = upload_to_mineru resp fetch := by
  have hcontent : (iterState resp 0 i pollInit).content_list = none := by
    rw [iterState_content_list]; rfl
  have himages : (iterState resp 0 i pollInit).image_urls = [] := by
    rw [iterState_image_urls]; rfl
  have key : ∀ f : String → ZipFetch, upload_to_mineru resp f =
      .finished ⟨"done", info.err_msg.getD "", none, []⟩ (i + 1) := by
    intro f
    have hm : max_retries = i + (max_retries - i - 1 + 1) := by
      have h30 : max_retries = 30 := rfl
      omega
    unfold upload_to_mineru
    rw [hm, pollLoop_skip resp f i (max_retries - i - 1 + 1) 0 pollInit
      (fun j hj => by simpa using hprev j hj), Nat.zero_add]
    have hstep : stepResult f i (iterState resp 0 i pollInit) (resp i) =
        some (.finished ⟨"done", info.err_msg.getD "", none, []⟩ (i + 1)) := by
      rw [hr, stepResult_done_nozip rest f i _ hdone hz, hcontent, himages]
    simp only [pollLoop, hstep]
  exact ⟨key fetch, fun f2 => (key f2).trans (key fetch).symm⟩

/-- C1 witness: one still-processing response, then `"done"` with an empty
(falsy) `full_zip_url`: the loop ends after attempt 2 in state `"done"`
with empty content and images. -/
theorem c1_done_without_zip_witness :
    upload_to_mineru respProcThenDone fetchNone = .finished ⟨"done", "", none, []⟩ 2 :=
  (c1_done_without_zip respProcThenDone fetchNone 1 ⟨some "done", some "", some ""⟩ []
    (by decide)
    (by intro j hj
        have hj0 : j = 0 := by omega
        subst hj0
        decide)
    (by decide) rfl rfl).1

/-- C2, counterexample: a transport-level failure on the very first poll
attempt aborts the loop at once — the outcome is an escaped exception after
1 attempt, not a continuation to the 30-attempt cap. The claim says the loop
keeps polling until the cap before reporting the error. -/
theorem c2_counterexample :
    respTransport 0 = .transportError ∧
    upload_to_mineru respTransport fetchNone = .exn 1 ∧
    attemptsOf (upload_to_mineru respTransport fetchNone) ≠ max_retries :=
  ⟨rfl, by decide, by decide⟩

/-- C2, amended: a transport-level error during any poll attempt aborts the
loop immediately: the exception escapes the loop during that attempt (the
endpoint converts it into an HTTP 500 response) and no further attempts are
performed. -/
theorem c2_transport_error_aborts (resp : Nat → StatusResponse) (fetch : String → ZipFetch)
    (i : Nat)
    (hi : i < max_retries)
    (hprev : ∀ j, j < i → continuesPolling (resp j) = true)
    (ht : resp i = .transportError) :
    upload_to_mineru resp fetch = .exn (i + 1) := by
  have hm : max_retries = i + (max_retries - i - 1 + 1) := by
    have h30 : max_retries = 30 := rfl
    omega
  unfold upload_to_mineru
  rw [hm, pollLoop_skip resp fetch i (max_retries - i - 1 + 1) 0 pollInit
    (fun j hj => by simpa using hprev j hj), Nat.zero_add]
  have hstep : stepResult fetch i (iterState resp 0 i pollInit) (resp i) =
      some (.exn (i + 1)) := by
    rw [ht]; rfl
  simp only [pollLoop, hstep]

/-- C2 witness: the transport failure at attempt 1 of the all-failing
sequence aborts the loop with an exception after exactly one attempt. -/
theorem c2_transport_error_aborts_witness :
    upload_to_mineru respTransport fetchNone = .exn 1 :=
  c2_transport_error_aborts respTransport fetchNone 0 (by decide)
    (fun j hj => absurd hj (Nat.not_lt_zero j)) rfl

/-- C3, counterexample: thirty still-processing responses leave the result
in state `"processing"` — there is no distinct timed-out marker; the final
locals equal the initial ones and the loop simply ran its 30 attempts. The
claim says the result state is a distinct `TimedOut` value. -/
theorem c3_counterexample :
    respProcessing 0 = .ok 0 [⟨some "processing", none, none⟩] ∧
    upload_to_mineru respProcessing fetchNone = .finished pollInit max_retries ∧
    pollInit.final_state = "processing" :=
  ⟨rfl, by decide, rfl⟩

/-- C3, amended: a response sequence that keeps the loop polling for all 30
attempts yields a result whose state is the last reported still-processing
state (never `"done"` or `"failed"`, and not a distinct timed-out marker),
with `content_list = none` and no images, and the archive fetcher is never
consulted (the outcome is the same for every fetcher). -/
theorem c3_all_processing (resp : Nat → StatusResponse) (fetch : String → ZipFetch)
    (h : ∀ j, j < max_retries → continuesPolling (resp j) = true) :
    upload_to_mineru resp fetch =
      .finished (iterState resp 0 max_retries pollInit) max_retries ∧
    (iterState resp 0 max_retries pollInit).content_list = none ∧
    (iterState resp 0 max_retries pollInit).image_urls = [] ∧
    (iterState resp 0 max_retries pollInit).final_state ≠ "done" ∧
    (iterState resp 0 max_retries pollInit).final_state ≠ "failed" ∧
    ∀ fetch2 : String → ZipFetch,
      upload_to_mineru resp fetch2 = upload_to_mineru resp fetch := by
  have key : ∀ f : String → ZipFetch, upload_to_mineru resp f =
      .finished (iterState resp 0 max_retries pollInit) max_retries := by
    intro f
    show pollLoop resp f (max_retries + 0) 0 pollInit = _
    rw [pollLoop_skip resp f max_retries 0 0 pollInit
      (fun j hj => by simpa using h j hj)]
    rfl
  have hnt := iterState_not_terminal resp max_retries 0 pollInit
    (fun j hj => by simpa using h j hj) (by decide) (by decide)
  refine ⟨key fetch, ?_, ?_, hnt.1, hnt.2,
    fun f2 => (key f2).trans (key fetch).symm⟩
  · rw [iterState_content_list]; rfl
  · rw [iterState_image_urls]; rfl

/-- C3 witness: the all-processing sequence ends with the initial locals
after the full 30 attempts. -/
theorem c3_all_processing_witness :
    upload_to_mineru respProcessing fetchNone =
      .finished (iterState respProcessing 0 max_retries pollInit) max_retries :=
  (c3_all_processing respProcessing fetchNone (fun _ _ => rfl)).1

/-- C4, counterexample: a `"done"` response carrying `err_msg="boom"` yields
a result whose state is `"done"` (not `"failed"`) and whose error message is
the non-empty `"boom"` — the claim says a non-Failed result carries no error
message. -/
theorem c4_counterexample :
    respDoneErr 0 = .ok 0 [⟨some "done", some "boom", some "http://z"⟩] ∧
    upload_to_mineru respDoneErr fetchEmptyArchive =
      .finished ⟨"done", "boom", none, []⟩ 1 ∧
    ("done" : String) ≠ "failed" ∧ ("boom" : String) ≠ "" :=
  ⟨rfl, by decide, by decide, by decide⟩

/-- C4, amended: the result's `err_msg` mirrors the `err_msg` field of the
last examined extract result regardless of the state; in particular it is
empty whenever every response's examined `err_msg` is empty or absent, but
it can be non-empty even when the final state is not `"failed"`. -/
theorem c4_err_msg_from_responses (resp : Nat → StatusResponse) (fetch : String → ZipFetch)
    (st : LoopState) (n : Nat)
    (hall : ∀ j, j < max_retries → respErrMsgEmpty (resp j) = true)
    (hfin : upload_to_mineru resp fetch = .finished st n) :
    st.final_err_msg = "" :=
  pollLoop_err_empty resp fetch max_retries 0 pollInit
    (fun j hj => by simpa using hall j hj) rfl st n hfin

/-- C4 witness: the all-processing, no-error sequence gives a result with an
empty error message. -/
theorem c4_err_msg_from_responses_witness : pollInit.final_err_msg = "" :=
  c4_err_msg_from_responses respProcessing fetchNone pollInit max_retries
    (fun _ _ => rfl) (by decide)

/-- C5: the poll loop performs at most `max_retries = 30` status queries (it
is a bounded `for` loop, so it terminates); and whenever all attempts before
attempt `i < 30` keep the loop polling and attempt `i`'s response reports a
terminal state (`"done"` or `"failed"`), the loop stops right there, after
`i + 1` attempts. -/
theorem c5_poll_bounded (resp : Nat → StatusResponse) (fetch : String → ZipFetch) :
    attemptsOf (upload_to_mineru resp fetch) ≤ max_retries ∧
    ∀ i, i < max_retries → (∀ j, j < i → continuesPolling (resp j) = true) →
      reportsTerminal (resp i) = true →
      attemptsOf (upload_to_mineru resp fetch) = i + 1 := by
  constructor
  · have := attemptsOf_pollLoop_le resp fetch max_retries 0 pollInit
    simpa using this
  · intro i hi hprev ht
    have hm : max_retries = i + (max_retries - i - 1 + 1) := by
      have h30 : max_retries = 30 := rfl
      omega
    unfold upload_to_mineru
    rw [hm, pollLoop_skip resp fetch i (max_retries - i - 1 + 1) 0 pollInit
      (fun j hj => by simpa using hprev j hj), Nat.zero_add]
    obtain ⟨res, hres⟩ := Option.isSome_iff_exists.mp
      (stepResult_isSome_of_terminal ht fetch i (iterState resp 0 i pollInit))
    have heq : pollLoop resp fetch (max_retries - i - 1 + 1) i
        (iterState resp 0 i pollInit) = res := by
      simp only [pollLoop, hres]
    rw [heq]
    exact attemptsOf_stepResult hres

/-- C6: in every returned result, `content_list` is `none` and `image_urls`
is empty unless the final state is `"done"` — the only code path that fills
either runs inside the `state == "done"` branch. -/
theorem c6_content_only_when_done (resp : Nat → StatusResponse) (fetch : String → ZipFetch)
    (st : LoopState) (n : Nat)
    (hfin : upload_to_mineru resp fetch = .finished st n)
    (hnd : st.final_state ≠ "done") :
    st.content_list = none ∧ st.image_urls = [] := by
  rcases pollLoop_finished_content resp fetch max_retries 0 pollInit rfl rfl st n hfin with
    hd | h
  · exact absurd hd hnd
  · exact h

/-- C6 witness: a failed job's result has empty content and images. -/
theorem c6_content_only_when_done_witness :
    (⟨"failed", "parse error", none, []⟩ : LoopState).content_list = none ∧
    (⟨"failed", "parse error", none, []⟩ : LoopState).image_urls = [] :=
  c6_content_only_when_done respFailed fetchNone ⟨"failed", "parse error", none, []⟩ 1
    (by decide) (by decide)

/-- C7: the image scan is exactly a filter of the archive's entry list (one
record per non-directory entry under `images/`, in the archive's own
enumeration order, directory entries excluded) mapped to relocation records;
in particular an archive with no matching entry yields the empty list
without failing. -/
theorem c7_images_enumeration_order (entries : List ZipEntry) :
    extractImages entries = (entries.filter imagePred).map mkImageInfo :=
  extractImages_eq_filter_map entries

/-- C8: every relocated image's record stores the literal basename of its
archive path as the object name (its URL is built from that name, no
generated id is involved: storing under `use_original_name = true` keeps the
name); while the caller-supplied original document, stored under a freshly
generated id that does not occur in `file_name`, gets an object name
distinct from `file_name`. -/
theorem c8_image_names_preserved (entries : List ZipEntry) (file_name gen_id : String)
    (hfresh : containsSub gen_id.data file_name.data = false) :
    (∀ img, img ∈ extractImages entries →
      img.name = basenameStr img.path ∧
      img.url = build_file_url img.name ∧
      upload_object_name img.name gen_id true = img.name) ∧
    upload_object_name file_name gen_id false ≠ file_name := by
  constructor
  · intro img hmem
    obtain ⟨e, _, _, heq⟩ := mem_extractImages hmem
    subst heq
    exact ⟨rfl, rfl, rfl⟩
  · intro hEq
    rw [upload_object_name_false] at hEq
    by_cases hext : extOf file_name = ""
    · rw [if_pos hext] at hEq
      subst hEq
      rw [containsSub_self] at hfresh
      exact Bool.noConfusion hfresh
    · rw [if_neg hext] at hEq
      rw [← hEq] at hfresh
      have hdata : (gen_id ++ "." ++ extOf file_name).data =
          gen_id.data ++ ('.' :: (extOf file_name).data) := by
        simp [String.data_append]
      rw [hdata, containsSub_append] at hfresh
      exact Bool.noConfusion hfresh

/-- C8 witness: storing `doc.pdf` under the fresh id `8f1c2a` produces the
object name `8f1c2a.pdf`, distinct from `doc.pdf`; the image name is kept. -/
theorem c8_image_names_preserved_witness :
    upload_object_name "doc.pdf" "8f1c2a" false = "8f1c2a.pdf" ∧
    upload_object_name "doc.pdf" "8f1c2a" false ≠ "doc.pdf" ∧
    upload_object_name "fig1.png" "8f1c2a" true = "fig1.png" :=
  ⟨by decide,
    (c8_image_names_preserved [] "doc.pdf" "8f1c2a" (by decide)).2,
    by decide⟩

/-- C9: the content-file lookup scans the entry list in order for the first
path containing `"layout.json"`: when no entry's path contains it the result
is `none` (no failure), and when the list splits as `pre ++ e :: post` with
no match in `pre` and a match at `e`, the result is exactly `e`'s (decoded)
payload. -/
theorem c9_layout_selection (entries : List ZipEntry) :
    ((∀ e, e ∈ entries → containsSub "layout.json".data e.filename.data = false) →
      findLayout entries = none) ∧
    ∀ pre e post, entries = pre ++ e :: post →
      (∀ e2, e2 ∈ pre → containsSub "layout.json".data e2.filename.data = false) →
      containsSub "layout.json".data e.filename.data = true →
      findLayout entries = some e.fileData := by
  constructor
  · intro h
    induction entries with
    | nil => rfl
    | cons a rest ih =>
      have ha := h a (List.mem_cons_self a rest)
      rw [findLayout, if_neg (by simp [ha])]
      exact ih fun e he => h e (List.mem_cons_of_mem a he)
  · intro pre e post hent hpre hcont
    subst hent
    induction pre with
    | nil =>
      rw [List.nil_append, findLayout, if_pos hcont]
    | cons a t ih =>
      have ha := hpre a (List.mem_cons_self a t)
      rw [List.cons_append, findLayout, if_neg (by simp [ha])]
      exact ih fun e2 he2 => hpre e2 (List.mem_cons_of_mem a he2)

/-- C10, counterexample: `"file."` contains a dot, yet the generated object
name is the bare id `"u1"`, not `"u1."` — the Python guard is on the
truthiness of the computed extension, not on the presence of a dot. The
claim says any dotted name gets `"<uuid>.<ext>"` with ext the (here empty)
part after the last dot. -/
theorem c10_counterexample :
    hasChar ("file." : String).data '.' = true ∧
    upload_object_name "file." "u1" false = "u1" ∧
    upload_object_name "file." "u1" false ≠ "u1" ++ "." ++ "" :=
  ⟨by decide, by decide, by decide⟩

/-- C10, amended: when `file_name` has no dot the generated name is the bare
id; when `file_name = stem ++ "." ++ ext` with `ext` dot-free, the generated
name is `id ++ "." ++ ext` if `ext` is nonempty and the bare id (with no
trailing dot) if `ext` is empty. -/
theorem c10_generated_name (file_name gen_id : String) :
    (hasChar file_name.data '.' = false →
      upload_object_name file_name gen_id false = gen_id) ∧
    ∀ stem ext2 : String, file_name = stem ++ "." ++ ext2 →
      hasChar ext2.data '.' = false →
      (ext2 ≠ "" → upload_object_name file_name gen_id false = gen_id ++ "." ++ ext2) ∧
      (ext2 = "" → upload_object_name file_name gen_id false = gen_id) := by
  constructor
  · intro h
    rw [upload_object_name_false, if_pos (extOf_no_dot file_name h)]
  · intro stem ext2 hfn hnd
    subst hfn
    have hext := extOf_append stem ext2 hnd
    constructor
    · intro hne
      rw [upload_object_name_false, hext, if_neg hne]
    · intro he
      subst he
      rw [upload_object_name_false, hext, if_pos rfl]

end MineruSpec
